import Mathlib

/-!
Verification of the chunk-to-row reassembly layer of `src/src/row-builder.js`
(`RowBuilder`): the type-directed `merge` of boundary-split values, the
append/collect row state machine (`append`, `build`, `collectRows`) and the
row formatter (`formatValue`, `toJSON`).

The embedding models the wire-level value universe after the protobuf
"kind"-tag unwrap performed by `RowBuilder.getValue`: JavaScript `null`,
strings (the null sentinel is the string `"NULL_VALUE"`), and ordered lists
(which represent both ARRAY and STRUCT values on the wire).  JavaScript
executions that throw a `TypeError` or produce values outside this universe
(`undefined`, `NaN`) are modelled as `Option.none`.
-/

/-- Wire-level raw value as seen by the row builder after `getValue`
unwrapping: JS `null`, a string, or a JS array of raw values.  Arrays carry
both ARRAY- and STRUCT-typed wire values. -/
inductive RawValue where
  | nullV : RawValue
  | str : String → RawValue
  | list : List RawValue → RawValue

/-- Declared column type, mirroring the metadata objects the source walks:
`{code, arrayElementType?, structType?}`.  `scalarT c` stands for a type
object whose `code` is the string `c` and is neither `ARRAY` nor `STRUCT`
(well-formed metadata always pairs those two codes with their child types,
which the two recursive constructors carry). -/
inductive SpanType where
  | scalarT : String → SpanType
  | arrayT : SpanType → SpanType
  | structT : List (String × SpanType) → SpanType

mutual
/-- Structural size of a type tree; used as recursion fuel for `merge` and
`formatValue`, whose recursion descends into array element types and
positionally selected struct child types. -/
def SpanType.size : SpanType → Nat
  | .scalarT _ => 1
  | .arrayT e => 1 + e.size
  | .structT fs => 1 + sizeFields fs

/-- Combined size of a struct's child field types. -/
def sizeFields : List (String × SpanType) → Nat
  | [] => 0
  | (_, t) :: fs => 1 + t.size + sizeFields fs
end

/-- The source's `is.nil` (from the `is` package) tests for JS `null`; the
string sentinel `"NULL_VALUE"` is notably not nil. -/
def isNilRV : RawValue → Bool
  | .nullV => true
  | _ => false

/-- The source's `is.string`. -/
def isStringRV : RawValue → Bool
  | .str _ => true
  | _ => false

/-- Predicate of the post-merge filter `!is.string(value) || value.length`:
keep non-strings and non-empty strings. -/
def keepInMerge : RawValue → Bool
  | .str s => s.length != 0
  | _ => true

/-- The `merged.filter(...)` step at the end of `RowBuilder.merge`
(row-builder.js lines 134-137): drop empty-string merge artifacts. -/
def mergeFilter (vs : List RawValue) : List RawValue :=
  vs.filter keepInMerge

mutual
/-- `Array.prototype.toString` semantics for one element of a JS array under
`join(",")`: `null` renders as the empty string, nested arrays render
recursively. -/
def jsArrayElemToString : RawValue → String
  | .nullV => ""
  | .str s => s
  | .list vs => jsArrayJoin vs

/-- `Array.prototype.join(",")` on a list of raw values. -/
def jsArrayJoin : List RawValue → String
  | [] => ""
  | [v] => jsArrayElemToString v
  | v :: v' :: vs => jsArrayElemToString v ++ "," ++ jsArrayJoin (v' :: vs)
end

/-- `ToString` coercion applied by the JS `+` operator to each operand of the
scalar-merge concatenation `head + tail` (reachable operands are strings and
arrays; `null` is excluded by the `is.nil` guard but rendered faithfully). -/
def jsPrimToString : RawValue → String
  | .nullV => "null"
  | .str s => s
  | .list vs => jsArrayJoin vs

/-- `RowBuilder.getValue` (row-builder.js lines 66-78) unwraps the protobuf
`{kind: ..., <kind>: ...}` tagging and a `listValue`'s `.values` field.  On
the post-unwrap universe used by this embedding (plain strings, JS arrays,
`null` — none of which has a `kind` or `values` property) it returns its
argument unchanged. -/
def getValue (v : RawValue) : RawValue := v

/-- Fuel-indexed body of `RowBuilder.merge` (row-builder.js lines 108-138).
The fuel only drives termination; `mergeF_agree` shows the result does not
depend on it once it exceeds the dispatching type's size.  Cases returning
`none` are exactly the runs where the JS code throws (`pop`/member access on
a non-array, struct field lookup out of range) or leaves the modelled value
universe (`pop`/`shift` of an empty list yielding `undefined`). -/
def mergeF : Nat → SpanType → RawValue → RawValue → Option (List RawValue)
  | 0, _, _, _ => none
  | fuel + 1, t, head0, tail0 =>
    let head := getValue head0
    let tail := getValue tail0
    match t with
    | .arrayT elemT =>
      match head, tail with
      | .list hs, .list ts =>
        match hs.getLast?, ts.head? with
        | some hLast, some tHead =>
          (mergeF fuel elemT hLast tHead).map fun items =>
            mergeFilter [RawValue.list (hs.dropLast ++ items ++ ts.tail)]
        | _, _ => none
      | _, _ => none
    | .structT sfields =>
      match head, tail with
      | .list hs, .list ts =>
        match sfields.get? (hs.length - 1), hs.getLast?, ts.head? with
        | some nmt, some hLast, some tHead =>
          (mergeF fuel nmt.2 hLast tHead).map fun items =>
            mergeFilter [RawValue.list (hs.dropLast ++ items ++ ts.tail)]
        | _, _, _ => none
      | _, _ => none
    | .scalarT c =>
      if !isNilRV head && !isNilRV tail && !(c == "FLOAT64") then
        some (mergeFilter [RawValue.str (jsPrimToString head ++ jsPrimToString tail)])
      else
        some (mergeFilter [head, tail])

namespace RowBuilder

/-- `RowBuilder.merge` (row-builder.js lines 108-138): type-directed merge of
the two halves of a chunk-boundary-split value. -/
def merge (t : SpanType) (head tail : RawValue) : Option (List RawValue) :=
  mergeF (t.size + 1) t head tail

end RowBuilder

/-- One streamed `PartialResultSet` message as consumed by the builder: a
flat list of values plus the `chunkedValue` flag saying the last value is
incomplete and continues in the next chunk's first value. -/
structure Chunk where
  values : List RawValue
  chunkedValue : Bool

/-- The builder state (`function RowBuilder`, row-builder.js lines 28-39):
the field list from `metadata.rowType.fields` (name/type pairs), the
buffered chunks, and the accumulated rows.  The last row is the
`currentRow` getter's value; `rows` starts as `[[]]`. -/
structure RowBuilder where
  fields : List (String × SpanType)
  chunks : List Chunk
  rows : List (List RawValue)

namespace RowBuilder

/-- The constructor's initial state: given metadata fields and a first batch
of chunks, `this.rows = [[]]`. -/
def init (fields : List (String × SpanType)) (chunks : List Chunk) : RowBuilder :=
  ⟨fields, chunks, [[]]⟩

/-- The `currentRow` getter: the last row of `this.rows`.  The builder keeps
`rows` nonempty (it starts as `[[]]` and every operation leaves at least one
row), so the `[]` default is never reached from the initial state. -/
def currentRow (rows : List (List RawValue)) : List RawValue :=
  (rows.getLast?).getD []

/-- `RowBuilder.prototype.append` (lines 143-149), acting on `this.rows`
with `fc = this.fields.length`: if the current row is already full, start a
new row; then push the value onto the current row. -/
def append (fc : Nat) (rows : List (List RawValue)) (v : RawValue) :
    List (List RawValue) :=
  let rows' := if (currentRow rows).length = fc then rows ++ [[]] else rows
  rows'.dropLast ++ [currentRow rows' ++ [v]]

/-- `this.currentRow.pop()`: drop the last value of the current row (a
no-op on an empty current row, as `Array.prototype.pop`). -/
def popCurrent (rows : List (List RawValue)) : List (List RawValue) :=
  rows.dropLast ++ [(currentRow rows).dropLast]

/-- Body of the `forEach` in `RowBuilder.prototype.build` (lines 158-172)
for one chunk: if the previous chunk ended mid-value, pop the last value of
the current row and shift the first value of this chunk, merge them using
the type of the field the popped value belongs to
(`fields[currentRow.length - 1].type`, read before the pop), and append
every merged value; then append the chunk's remaining values (each passed
through `getValue`).  Returns the updated rows together with the chunk as
the loop leaves it (first value consumed on a merge) — the new
`previousChunk`.  `none` models the runs where the JS throws
(`fields[-1].type` on an empty current row, field lookup past the end) or
leaves the modelled universe (`shift()` of an empty values list). -/
def processChunk (fields : List (String × SpanType)) (prevChunked : Bool)
    (rows : List (List RawValue)) (c : Chunk) :
    Option (List (List RawValue) × Chunk) :=
  if prevChunked then
    match (currentRow rows).getLast?, fields.get? ((currentRow rows).length - 1),
        c.values with
    | some headVal, some nmt, tailVal :: rest => do
      let merged ← merge nmt.2 headVal tailVal
      let rows1 := merged.foldl (append fields.length) (popCurrent rows)
      some ((rest.map getValue).foldl (append fields.length) rows1,
        ⟨rest, c.chunkedValue⟩)
    | _, _, _ => none
  else
    some ((c.values.map getValue).foldl (append fields.length) rows, c)

/-- The chunk loop of `build` (lines 158-173), threading `previousChunk`. -/
def runChunks (fields : List (String × SpanType)) :
    List Chunk → Option Chunk → List (List RawValue) →
    Option (List (List RawValue) × Option Chunk)
  | [], prev, rows => some (rows, prev)
  | c :: cs, prev, rows => do
    let pc := (prev.map Chunk.chunkedValue).getD false
    let (rows', c') ← processChunk fields pc rows c
    runChunks fields cs (some c') rows'

/-- `RowBuilder.prototype.build` (lines 154-186): process every buffered
chunk into rows and empty the chunk buffer; then, if the last chunk ended
mid-value, retain it trimmed to its final value (`values.splice(-1)`, which
leaves zero values when the values list was exhausted) as the sole buffered
chunk and remove the trailing partial value from the current row. -/
def build (s : RowBuilder) : Option RowBuilder := do
  let (rows, prev) ← runChunks s.fields s.chunks none s.rows
  match prev with
  | some p =>
    if p.chunkedValue then
      some { fields := s.fields
             chunks := [⟨(p.values.getLast?.map fun v => [v]).getD [], p.chunkedValue⟩]
             rows := popCurrent rows }
    else
      some { fields := s.fields, chunks := [], rows := rows }
  | none => some { fields := s.fields, chunks := [], rows := rows }

/-- `RowBuilder.prototype.collectRows` (lines 44-61): return the complete
rows, holding back a trailing partial row (`!is.empty(this.rows)` and last
row length differing from the field count) as the whole new row state; with
no trailing partial row the row state resets to a single empty row. -/
def collectRows (s : RowBuilder) : List (List RawValue) × RowBuilder :=
  if !s.rows.isEmpty && (currentRow s.rows).length != s.fields.length then
    (s.rows.dropLast, { s with rows := [currentRow s.rows] })
  else
    (s.rows, { s with rows := [[]] })

end RowBuilder

/-- Output shape of the formatter: `null` for the sentinel, a raw value
handed through unchanged for scalar codes (scalar decoding is an external
collaborator of this layer), a formatted array, or named struct children in
declared order.  The source materialises struct children as a JS object
(insertion-ordered; duplicate names last-write-wins); the ordered pair list
coincides with it whenever child names are distinct. -/
inductive FormattedValue where
  | nullF : FormattedValue
  | raw : RawValue → FormattedValue
  | arr : List FormattedValue → FormattedValue
  | strct : List (String × FormattedValue) → FormattedValue

/-- The `value === 'NULL_VALUE'` test opening `RowBuilder.formatValue`
(row-builder.js line 85). -/
def isNullSentinel : RawValue → Bool
  | .str "NULL_VALUE" => true
  | _ => false

/-- Elementwise traversal with failure propagation (`Array.prototype.map`
whose callback may leave the modelled universe). -/
def mapMOpt {α β : Type} (f : α → Option β) : List α → Option (List β)
  | [] => some []
  | a :: as => do
    let b ← f a
    let bs ← mapMOpt f as
    pure (b :: bs)

/-- The `reduce` over `field.structType.fields` in `formatValue` (lines
99-102): the struct field at `index` is paired with `value[index]`; a field
beyond the end of the value list reads `undefined` (outside the modelled
universe, hence `none`); extra values are ignored. -/
def formatChildrenF (fmt : SpanType → RawValue → Option FormattedValue) :
    List (String × SpanType) → List RawValue →
    Option (List (String × FormattedValue))
  | [], _ => some []
  | _ :: _, [] => none
  | (n, t) :: fs, v :: vs => do
    let fv ← fmt t v
    let rest ← formatChildrenF fmt fs vs
    pure ((n, fv) :: rest)

/-- Fuel-indexed body of `RowBuilder.formatValue` (lines 84-103); the fuel
only drives termination (`formatValueF_agree`).  The sentinel check
precedes the type dispatch, as in the source.  `none` marks runs where the
JS throws (`value.map` on a non-array) or indexes outside the modelled
universe. -/
def formatValueF : Nat → SpanType → RawValue → Option FormattedValue
  | 0, _, _ => none
  | fuel + 1, t, v =>
    if isNullSentinel v then some .nullF
    else
      match t, v with
      | .arrayT e, .list vs => (mapMOpt (formatValueF fuel e) vs).map .arr
      | .arrayT _, _ => none
      | .structT fs, .list vs =>
        (formatChildrenF (formatValueF fuel) fs vs).map .strct
      | .structT _, _ => none
      | .scalarT _, _ => some (.raw v)

namespace RowBuilder

/-- `RowBuilder.formatValue` (row-builder.js lines 84-103): the null
sentinel maps to null; ARRAY values format elementwise with the element
type; STRUCT values format per child field in declared order; every other
code hands the value through unchanged (scalar decoding being external to
this layer). -/
def formatValue (t : SpanType) (v : RawValue) : Option FormattedValue :=
  formatValueF (t.size + 1) t v

/-- Per-row body of `RowBuilder.prototype.toJSON` (lines 196-213, identical
in `toJSONnobuild`): each value of the row is paired with the field at its
index and formatted by `formatValue`.  A row longer than the field list
makes the JS read `undefined.name` and throw (`none`); extra fields are
unused.  The keyed `serializedRow` view the source also builds (and drops)
is last-write-wins on duplicate names; the ordered column list is the
result. -/
def formatRow : List (String × SpanType) → List RawValue →
    Option (List (String × FormattedValue))
  | _, [] => some []
  | [], _ :: _ => none
  | (n, t) :: fs, v :: vs => do
    let fv ← formatValue t v
    let rest ← formatRow fs vs
    pure ((n, fv) :: rest)

end RowBuilder

namespace RowBuilder

/-- Total number of values distributed over the rows: the length of the
post-merge value stream the builder has ingested (no value is lost or
reordered by `append`). -/
def totalLen (rows : List (List RawValue)) : Nat :=
  (rows.map List.length).sum

/-- Rows invariant maintained by the builder for field count `fc`: rows are
nonempty, every row before the last is complete (length exactly `fc`), and
the last (current) row holds at most `fc` values. -/
def goodRows (fc : Nat) (rows : List (List RawValue)) : Prop :=
  ∃ l r, rows = l ++ [r] ∧ (∀ x ∈ l, x.length = fc) ∧ r.length ≤ fc


/-- Builder states reachable from a freshly constructed builder by buffering
another chunk, processing the buffered chunks (`build`, when it succeeds) or
flushing complete rows (`collectRows`). -/
inductive Reach : RowBuilder → Prop where
  | start (fields : List (String × SpanType)) (chunks : List Chunk) :
      Reach (init fields chunks)
  | ingest {s : RowBuilder} (c : Chunk) : Reach s →
      Reach { s with chunks := s.chunks ++ [c] }
  | buildStep {s s' : RowBuilder} : Reach s → build s = some s' → Reach s'
  | flushStep {s : RowBuilder} : Reach s → Reach (collectRows s).2

end RowBuilder

/-- Helper: a successful positional lookup in a struct's field list yields a
field whose type is smaller than the whole field list. -/
theorem size_snd_lt_of_get? {sfields : List (String × SpanType)} {i : Nat}
    {p : String × SpanType} (h : sfields.get? i = some p) :
    p.2.size < sizeFields sfields := by
  induction sfields generalizing i with
  | nil => simp [List.get?] at h
  | cons q fs ih =>
    obtain ⟨a, b⟩ := q
    cases i with
    | zero =>
      simp only [List.get?] at h
      cases h
      simp only [sizeFields]
      omega
    | succ j =>
      simp only [List.get?] at h
      have := ih h
      simp only [sizeFields]
      omega

/-- The merge result is fuel-independent once the fuel exceeds the size of
the dispatching type. -/
theorem mergeF_agree :
    ∀ (fuel₁ fuel₂ : Nat) (t : SpanType) (h tl : RawValue),
      t.size < fuel₁ → t.size < fuel₂ →
      mergeF fuel₁ t h tl = mergeF fuel₂ t h tl := by
  intro fuel₁
  induction fuel₁ with
  | zero => intro fuel₂ t h tl h1 _; omega
  | succ n ih =>
    intro fuel₂ t h tl h1 h2
    match fuel₂, h2 with
    | m + 1, h2 =>
      cases t with
      | scalarT c => rfl
      | arrayT elemT =>
        have hlt : elemT.size < n ∧ elemT.size < m := by
          simp only [SpanType.size] at h1 h2; omega
        cases h with
        | list hs =>
          cases tl with
          | list ts =>
            simp only [mergeF, getValue]
            cases hs.getLast? with
            | none => rfl
            | some hLast =>
              cases ts.head? with
              | none => rfl
              | some tHead =>
                exact congrArg
                  (Option.map fun items =>
                    mergeFilter [RawValue.list (hs.dropLast ++ items ++ ts.tail)])
                  (ih m elemT hLast tHead hlt.1 hlt.2)
          | nullV => rfl
          | str _ => rfl
        | nullV => rfl
        | str _ => rfl
      | structT sfields =>
        cases h with
        | list hs =>
          cases tl with
          | list ts =>
            simp only [mergeF, getValue]
            cases hget : sfields.get? (hs.length - 1) with
            | none => rfl
            | some nmt =>
              cases hs.getLast? with
              | none => rfl
              | some hLast =>
                cases ts.head? with
                | none => rfl
                | some tHead =>
                  have hlt : nmt.2.size < sizeFields sfields := size_snd_lt_of_get? hget
                  have hl1 : nmt.2.size < n ∧ nmt.2.size < m := by
                    simp only [SpanType.size] at h1 h2; omega
                  exact congrArg
                    (Option.map fun items =>
                      mergeFilter [RawValue.list (hs.dropLast ++ items ++ ts.tail)])
                    (ih m nmt.2 hLast tHead hl1.1 hl1.2)
          | nullV => rfl
          | str _ => rfl
        | nullV => rfl
        | str _ => rfl

namespace RowBuilder

/-- Scalar case of `merge`, as in the source: concatenate as strings when
both sides are non-nil and the code is not FLOAT64, otherwise return both
values unmerged; then filter empty strings. -/
theorem merge_scalarT (c : String) (head tail : RawValue) :
    merge (.scalarT c) head tail =
      if !isNilRV head && !isNilRV tail && !(c == "FLOAT64") then
        some (mergeFilter [RawValue.str (jsPrimToString head ++ jsPrimToString tail)])
      else
        some (mergeFilter [head, tail]) := rfl

/-- Array case of `merge`: pop the last element of head, shift the first of
tail, merge them with the element type, splice back. -/
theorem merge_arrayT (elemT : SpanType) (hs ts : List RawValue) :
    merge (.arrayT elemT) (.list hs) (.list ts) =
      match hs.getLast?, ts.head? with
      | some hLast, some tHead =>
        (merge elemT hLast tHead).map fun items =>
          mergeFilter [RawValue.list (hs.dropLast ++ items ++ ts.tail)]
      | _, _ => none := by
  show mergeF ((SpanType.arrayT elemT).size + 1) _ _ _ = _
  simp only [mergeF, getValue]
  cases hs.getLast? with
  | none => rfl
  | some hLast =>
    cases ts.head? with
    | none => rfl
    | some tHead =>
      exact congrArg
        (Option.map fun items =>
          mergeFilter [RawValue.list (hs.dropLast ++ items ++ ts.tail)])
        (mergeF_agree (SpanType.arrayT elemT).size (elemT.size + 1) elemT hLast tHead
          (by simp only [SpanType.size]; omega) (by omega))

/-- Struct case of `merge`: the child type is selected positionally by the
length of head's list, then the same pop/shift/splice as arrays. -/
theorem merge_structT (sfields : List (String × SpanType)) (hs ts : List RawValue) :
    merge (.structT sfields) (.list hs) (.list ts) =
      match sfields.get? (hs.length - 1), hs.getLast?, ts.head? with
      | some nmt, some hLast, some tHead =>
        (merge nmt.2 hLast tHead).map fun items =>
          mergeFilter [RawValue.list (hs.dropLast ++ items ++ ts.tail)]
      | _, _, _ => none := by
  show mergeF ((SpanType.structT sfields).size + 1) _ _ _ = _
  simp only [mergeF, getValue]
  cases hget : sfields.get? (hs.length - 1) with
  | none => rfl
  | some nmt =>
    cases hs.getLast? with
    | none => rfl
    | some hLast =>
      cases ts.head? with
      | none => rfl
      | some tHead =>
        exact congrArg
          (Option.map fun items =>
            mergeFilter [RawValue.list (hs.dropLast ++ items ++ ts.tail)])
          (mergeF_agree (SpanType.structT sfields).size (nmt.2.size + 1) nmt.2 hLast tHead
            (by have := size_snd_lt_of_get? hget
                simp only [SpanType.size]; omega)
            (by omega))

end RowBuilder

/-- A struct child's type is smaller than the whole field list. -/
theorem size_snd_lt_of_mem :
    ∀ {fs : List (String × SpanType)} {p : String × SpanType},
      p ∈ fs → p.2.size < sizeFields fs := by
  intro fs
  induction fs with
  | nil => intro p h; cases h
  | cons q rest ih =>
    intro p h
    obtain ⟨a, b⟩ := q
    rcases List.mem_cons.1 h with h | h
    · subst h; simp only [sizeFields]; omega
    · have := ih h
      simp only [sizeFields]; omega

/-- Congruence for `mapMOpt`. -/
theorem mapMOpt_congr {α β : Type} {f g : α → Option β} :
    ∀ {l : List α}, (∀ a ∈ l, f a = g a) → mapMOpt f l = mapMOpt g l := by
  intro l
  induction l with
  | nil => intro _; rfl
  | cons a as ih =>
    intro h
    simp only [mapMOpt]
    rw [h a (by simp), ih fun x hx => h x (by simp [hx])]

/-- Congruence for `formatChildrenF`. -/
theorem formatChildrenF_congr {f g : SpanType → RawValue → Option FormattedValue} :
    ∀ {fs : List (String × SpanType)} {vs : List RawValue},
      (∀ p ∈ fs, ∀ v, f p.2 v = g p.2 v) →
      formatChildrenF f fs vs = formatChildrenF g fs vs := by
  intro fs
  induction fs with
  | nil => intro vs _; rfl
  | cons q rest ih =>
    intro vs h
    obtain ⟨n, t⟩ := q
    cases vs with
    | nil => rfl
    | cons v vs =>
      simp only [formatChildrenF]
      rw [h (n, t) (by simp) v, ih fun p hp v' => h p (by simp [hp]) v']

/-- The formatter result is fuel-independent once the fuel exceeds the size
of the dispatching type. -/
theorem formatValueF_agree :
    ∀ (fuel₁ fuel₂ : Nat) (t : SpanType) (v : RawValue),
      t.size < fuel₁ → t.size < fuel₂ →
      formatValueF fuel₁ t v = formatValueF fuel₂ t v := by
  intro fuel₁
  induction fuel₁ with
  | zero => intro fuel₂ t v h1 _; omega
  | succ n ih =>
    intro fuel₂ t v h1 h2
    match fuel₂, h2 with
    | m + 1, h2 =>
      simp only [formatValueF]
      cases hsent : isNullSentinel v with
      | true => simp
      | false =>
        simp only [Bool.false_eq_true, if_false]
        cases t with
        | scalarT c => rfl
        | arrayT e =>
          have he : e.size < n ∧ e.size < m := by
            simp only [SpanType.size] at h1 h2; omega
          cases v with
          | list vs =>
            exact congrArg (Option.map FormattedValue.arr)
              (mapMOpt_congr fun a _ => ih m e a he.1 he.2)
          | nullV => rfl
          | str s => rfl
        | structT fs =>
          cases v with
          | list vs =>
            refine congrArg (Option.map FormattedValue.strct)
              (formatChildrenF_congr fun p hp v' => ?_)
            have hps : p.2.size < sizeFields fs := size_snd_lt_of_mem hp
            have : p.2.size < n ∧ p.2.size < m := by
              simp only [SpanType.size] at h1 h2; omega
            exact ih m p.2 v' this.1 this.2
          | nullV => rfl
          | str s => rfl

namespace RowBuilder

/-- Sentinel equation of `formatValue`, for any declared type. -/
theorem formatValue_sentinel (t : SpanType) (v : RawValue)
    (h : isNullSentinel v = true) : formatValue t v = some .nullF := by
  cases t <;> simp [formatValue, formatValueF, h]

/-- Array equation of `formatValue`. -/
theorem formatValue_arrayT (e : SpanType) (vs : List RawValue) :
    formatValue (.arrayT e) (.list vs) = (mapMOpt (formatValue e) vs).map .arr := by
  show formatValueF ((SpanType.arrayT e).size + 1) _ _ = _
  simp only [formatValueF, isNullSentinel]
  exact congrArg (Option.map FormattedValue.arr)
    (mapMOpt_congr fun a _ =>
      formatValueF_agree (SpanType.arrayT e).size (e.size + 1) e a
        (by simp only [SpanType.size]; omega) (by omega))

/-- Struct equation of `formatValue`. -/
theorem formatValue_structT (fs : List (String × SpanType)) (vs : List RawValue) :
    formatValue (.structT fs) (.list vs) =
      (formatChildrenF formatValue fs vs).map .strct := by
  show formatValueF ((SpanType.structT fs).size + 1) _ _ = _
  simp only [formatValueF, isNullSentinel]
  refine congrArg (Option.map FormattedValue.strct)
    (formatChildrenF_congr fun p hp v' => ?_)
  have := size_snd_lt_of_mem hp
  exact formatValueF_agree (SpanType.structT fs).size (p.2.size + 1) p.2 v'
    (by simp only [SpanType.size]; omega) (by omega)

/-- Scalar equation of `formatValue`: any non-sentinel value under a
non-ARRAY, non-STRUCT code is handed through unchanged. -/
theorem formatValue_scalarT (c : String) (v : RawValue)
    (h : isNullSentinel v = false) :
    formatValue (.scalarT c) v = some (.raw v) := by
  cases v <;> simp_all [formatValue, formatValueF, isNullSentinel]

end RowBuilder

namespace RowBuilder

theorem currentRow_concat (l : List (List RawValue)) (r : List RawValue) :
    currentRow (l ++ [r]) = r := by
  simp [currentRow, List.getLast?_concat]

theorem append_concat (fc : Nat) (l : List (List RawValue)) (r : List RawValue)
    (v : RawValue) :
    append fc (l ++ [r]) v =
      if r.length = fc then (l ++ [r]) ++ [[v]] else l ++ [r ++ [v]] := by
  by_cases h : r.length = fc
  · simp only [append, currentRow_concat, h, if_pos rfl, if_true]
    rw [show (l ++ [r]) ++ [([] : List RawValue)] = (l ++ [r]) ++ [[]] from rfl]
    rw [List.dropLast_concat]
    simp [currentRow_concat]
  · simp only [append, currentRow_concat, h, if_false]
    rw [List.dropLast_concat]

theorem popCurrent_concat (l : List (List RawValue)) (r : List RawValue) :
    popCurrent (l ++ [r]) = l ++ [r.dropLast] := by
  simp [popCurrent, currentRow_concat, List.dropLast_concat]

theorem goodRows_init (fc : Nat) : goodRows fc [[]] :=
  ⟨[], [], rfl, (by intro x hx; cases hx), by simp⟩

theorem goodRows_append (fc : Nat) (hfc : 0 < fc) {rows : List (List RawValue)}
    (hg : goodRows fc rows) (v : RawValue) : goodRows fc (append fc rows v) := by
  obtain ⟨l, r, rfl, hl, hr⟩ := hg
  rw [append_concat]
  by_cases h : r.length = fc
  · rw [if_pos h]
    refine ⟨l ++ [r], [v], rfl, ?_, by simp; omega⟩
    intro x hx
    rcases List.mem_append.1 hx with hx | hx
    · exact hl x hx
    · simp at hx; subst hx; exact h
  · rw [if_neg h]
    exact ⟨l, r ++ [v], rfl, hl, by simp; omega⟩

theorem goodRows_appendList (fc : Nat) (hfc : 0 < fc) :
    ∀ (vs : List RawValue) {rows : List (List RawValue)},
      goodRows fc rows → goodRows fc (vs.foldl (append fc) rows) := by
  intro vs
  induction vs with
  | nil => intro rows hg; exact hg
  | cons v vs ih =>
    intro rows hg
    exact ih (goodRows_append fc hfc hg v)

theorem goodRows_popCurrent (fc : Nat) {rows : List (List RawValue)}
    (hg : goodRows fc rows) : goodRows fc (popCurrent rows) := by
  obtain ⟨l, r, rfl, hl, hr⟩ := hg
  rw [popCurrent_concat]
  exact ⟨l, r.dropLast, rfl, hl, by simp [List.length_dropLast]; omega⟩

/-- `getValue` is the identity on the post-unwrap universe, elementwise. -/
theorem map_getValue (vs : List RawValue) : vs.map getValue = vs := by
  induction vs with
  | nil => rfl
  | cons v vs ih => simp [getValue, ih]

theorem processChunk_flag {fields : List (String × SpanType)} {pc : Bool}
    {rows rows' : List (List RawValue)} {c c' : Chunk}
    (h : processChunk fields pc rows c = some (rows', c')) :
    c'.chunkedValue = c.chunkedValue := by
  unfold processChunk at h
  split at h
  · split at h
    · simp only [Option.bind_eq_bind, Option.bind_eq_some] at h
      obtain ⟨merged, hm, h⟩ := h
      cases h
      rfl
    · cases h
  · cases h
    rfl

theorem goodRows_processChunk {fields : List (String × SpanType)}
    (hfc : 0 < fields.length) {pc : Bool} {rows rows' : List (List RawValue)}
    {c c' : Chunk} (hg : goodRows fields.length rows)
    (h : processChunk fields pc rows c = some (rows', c')) :
    goodRows fields.length rows' := by
  unfold processChunk at h
  split at h
  · split at h
    · simp only [Option.bind_eq_bind, Option.bind_eq_some] at h
      obtain ⟨merged, hm, h⟩ := h
      cases h
      exact goodRows_appendList _ hfc _
        (goodRows_appendList _ hfc _ (goodRows_popCurrent _ hg))
    · cases h
  · cases h
    exact goodRows_appendList _ hfc _ hg

theorem goodRows_runChunks {fields : List (String × SpanType)}
    (hfc : 0 < fields.length) :
    ∀ (cs : List Chunk) (prev : Option Chunk) {rows rows' : List (List RawValue)}
      {prev' : Option Chunk},
      goodRows fields.length rows →
      runChunks fields cs prev rows = some (rows', prev') →
      goodRows fields.length rows' := by
  intro cs
  induction cs with
  | nil =>
    intro prev rows rows' prev' hg h
    cases h
    exact hg
  | cons c cs ih =>
    intro prev rows rows' prev' hg h
    simp only [runChunks, Option.bind_eq_bind, Option.bind_eq_some] at h
    obtain ⟨⟨rows1, c1⟩, hp, h⟩ := h
    exact ih (some c1) (goodRows_processChunk hfc hg hp) h

theorem build_fields {s s' : RowBuilder} (h : build s = some s') :
    s'.fields = s.fields := by
  unfold build at h
  simp only [Option.bind_eq_bind, Option.bind_eq_some] at h
  obtain ⟨⟨rows, prev⟩, hr, h⟩ := h
  match prev, h with
  | some p, h =>
    by_cases hc : p.chunkedValue = true
    · simp only [hc, if_true] at h; cases h; rfl
    · simp only [Bool.not_eq_true] at hc
      simp only [hc, Bool.false_eq_true, if_false] at h; cases h; rfl
  | none, h => cases h; rfl

theorem goodRows_build {s s' : RowBuilder} (hfc : 0 < s.fields.length)
    (hg : goodRows s.fields.length s.rows) (h : build s = some s') :
    goodRows s.fields.length s'.rows := by
  unfold build at h
  simp only [Option.bind_eq_bind, Option.bind_eq_some] at h
  obtain ⟨⟨rows, prev⟩, hr, h⟩ := h
  have hrows : goodRows s.fields.length rows :=
    goodRows_runChunks hfc s.chunks none hg hr
  match prev, h with
  | some p, h =>
    by_cases hc : p.chunkedValue = true
    · simp only [hc, if_true] at h
      cases h
      exact goodRows_popCurrent _ hrows
    · simp only [Bool.not_eq_true] at hc
      simp only [hc, Bool.false_eq_true, if_false] at h
      cases h
      exact hrows
  | none, h =>
    cases h
    exact hrows

theorem collectRows_concat (s : RowBuilder) (l : List (List RawValue))
    (r : List RawValue) (h : s.rows = l ++ [r]) :
    collectRows s =
      if r.length ≠ s.fields.length then (l, { s with rows := [r] })
      else (l ++ [r], { s with rows := [[]] }) := by
  unfold collectRows
  rw [h, currentRow_concat]
  have hne : ((l ++ [r]).isEmpty) = false := by
    cases l <;> simp [List.isEmpty]
  rw [hne]
  by_cases hlen : r.length = s.fields.length
  · simp [hlen]
  · simp [hlen, List.dropLast_concat]

/-- Every row handed out by `collectRows` on an invariant-satisfying state is
complete, and the retained state satisfies the invariant again. -/
theorem collectRows_good {s : RowBuilder} (hg : goodRows s.fields.length s.rows) :
    (∀ row ∈ (collectRows s).1, row.length = s.fields.length) ∧
      goodRows s.fields.length (collectRows s).2.rows ∧
      (collectRows s).2.fields = s.fields ∧ (collectRows s).2.chunks = s.chunks := by
  obtain ⟨l, r, hrows, hl, hr⟩ := hg
  rw [collectRows_concat s l r hrows]
  by_cases hlen : r.length ≠ s.fields.length
  · rw [if_pos hlen]
    refine ⟨hl, ⟨[], r, rfl, (by intro x hx; cases hx), hr⟩, rfl, rfl⟩
  · rw [if_neg hlen]
    push_neg at hlen
    refine ⟨?_, ⟨[], [], rfl, (by intro x hx; cases hx), by simp⟩, rfl, rfl⟩
    intro row hrow
    rcases List.mem_append.1 hrow with hx | hx
    · exact hl row hx
    · simp at hx; subst hx; exact hlen

theorem runChunks_append_chunks (fields : List (String × SpanType)) :
    ∀ (xs ys : List Chunk) (prev : Option Chunk) (rows : List (List RawValue)),
      runChunks fields (xs ++ ys) prev rows =
        (runChunks fields xs prev rows).bind fun rp =>
          runChunks fields ys rp.2 rp.1 := by
  intro xs
  induction xs with
  | nil => intro ys prev rows; rfl
  | cons c cs ih =>
    intro ys prev rows
    simp only [List.cons_append, runChunks, Option.bind_eq_bind]
    cases processChunk fields ((prev.map Chunk.chunkedValue).getD false) rows c with
    | none => rfl
    | some rc => exact ih ys (some rc.2) rc.1

/-- A run over chunks none of which is flagged `chunkedValue`, started with
an unflagged (or absent) previous chunk, simply appends all their values in
order; the final `previousChunk` is the last chunk (or the inherited one
when the list is empty). -/
theorem runChunks_unchunked (fields : List (String × SpanType)) :
    ∀ (cs : List Chunk) (prev : Option Chunk) (rows : List (List RawValue)),
      (∀ c ∈ cs, c.chunkedValue = false) →
      (prev.map Chunk.chunkedValue).getD false = false →
      runChunks fields cs prev rows =
        some ((cs.map Chunk.values).flatten.foldl (append fields.length) rows,
          match cs.getLast? with
          | some c => some c
          | none => prev) := by
  intro cs
  induction cs with
  | nil => intro prev rows _ _; rfl
  | cons c cs ih =>
    intro prev rows hcs hprev
    have hc : c.chunkedValue = false := hcs c (by simp)
    simp only [runChunks, hprev, Bool.false_eq_true, if_false, processChunk,
      map_getValue, Option.bind_eq_bind, Option.some_bind]
    rw [ih (some c) (c.values.foldl (append fields.length) rows)
      (fun x hx => hcs x (by simp [hx])) (by simp [hc])]
    simp only [List.map_cons, List.flatten, List.foldl_append]
    cases cs with
    | nil => simp [List.getLast?]
    | cons c' cs' => simp [List.getLast?]

theorem runChunks_last_flag (fields : List (String × SpanType)) :
    ∀ (cs : List Chunk) (prev : Option Chunk) {rows rows' : List (List RawValue)}
      {p : Chunk},
      runChunks fields cs prev rows = some (rows', some p) →
      (∃ c, cs.getLast? = some c ∧ p.chunkedValue = c.chunkedValue) ∨
        (cs = [] ∧ prev = some p) := by
  intro cs
  induction cs with
  | nil =>
    intro prev rows rows' p h
    cases h
    exact Or.inr ⟨rfl, rfl⟩
  | cons c cs ih =>
    intro prev rows rows' p h
    simp only [runChunks, Option.bind_eq_bind, Option.bind_eq_some] at h
    obtain ⟨⟨rows1, c1⟩, hp, h⟩ := h
    rcases ih (some c1) h with ⟨c', hlast, hflag⟩ | ⟨hnil, hprev⟩
    · refine Or.inl ⟨c', ?_, hflag⟩
      cases cs with
      | nil => simp [List.getLast?] at hlast
      | cons x xs => simpa [List.getLast?_cons_cons] using hlast
    · subst hnil
      cases hprev
      exact Or.inl ⟨c, rfl, processChunk_flag hp⟩

/-- Splitting one appended value into an append, a pop and an append of the
completed value is invisible to the row state: popping the value just
appended restores the append-relevant state. -/
theorem append_pop_append (fc : Nat) (hfc : 0 < fc) (l : List (List RawValue))
    (r : List RawValue) (x y : RawValue) :
    append fc (popCurrent (append fc (l ++ [r]) x)) y = append fc (l ++ [r]) y := by
  rw [append_concat]
  by_cases h : r.length = fc
  · rw [if_pos h, popCurrent_concat, append_concat, append_concat, if_pos h]
    simp only [List.dropLast_single, List.length_nil]
    rw [if_neg (by omega)]
    rfl
  · rw [if_neg h, popCurrent_concat, List.dropLast_concat, append_concat]

/-- The current row always ends in the value just appended. -/
theorem currentRow_append_getLast (fc : Nat) (l : List (List RawValue))
    (r : List RawValue) (x : RawValue) :
    (currentRow (append fc (l ++ [r]) x)).getLast? = some x := by
  rw [append_concat]
  by_cases h : r.length = fc
  · rw [if_pos h, currentRow_concat, List.getLast?_singleton]
  · rw [if_neg h, currentRow_concat, List.getLast?_concat]

/-- Sum of the row lengths across an append of a completed-row prefix. -/
theorem totalLen_concat (l : List (List RawValue)) (r : List RawValue) :
    totalLen (l ++ [r]) = totalLen l + r.length := by
  simp [totalLen]

theorem totalLen_complete {fc : Nat} {l : List (List RawValue)}
    (hl : ∀ x ∈ l, x.length = fc) : totalLen l = fc * l.length := by
  induction l with
  | nil => simp [totalLen]
  | cons x xs ih =>
    have hx : x.length = fc := hl x (by simp)
    have := ih fun y hy => hl y (by simp [hy])
    simp only [totalLen, List.map_cons, List.sum_cons] at this ⊢
    rw [hx, this]
    simp only [List.length_cons, Nat.mul_succ]
    omega

/-- Arithmetic of the flush count: a complete-prefix row list with a partial
last row and total value count `k * fc` has its last row either empty or
complete. -/
theorem rows_count_split {fc n r k : Nat} (hfc : 0 < fc) (hr : r ≤ fc)
    (h : fc * n + r = k * fc) : (r = 0 ∧ n = k) ∨ (r = fc ∧ n + 1 = k) := by
  rw [Nat.mul_comm k fc] at h
  rcases Nat.lt_or_ge n k with hlt | hge
  · have h1 : fc * (n + 1) ≤ fc * k := Nat.mul_le_mul_left fc hlt
    rw [Nat.mul_succ] at h1
    have hrfc : r = fc := by omega
    subst hrfc
    refine Or.inr ⟨rfl, Nat.eq_of_mul_eq_mul_left hfc ?_⟩
    rw [Nat.mul_succ]
    omega
  · have h1 : fc * k ≤ fc * n := Nat.mul_le_mul_left fc hge
    have hr0 : r = 0 := by omega
    subst hr0
    refine Or.inl ⟨rfl, Nat.eq_of_mul_eq_mul_left hfc ?_⟩
    omega

end RowBuilder

/-- A string of nonzero length is exactly a nonempty string. -/
theorem string_length_ne_zero {s : String} (h : s ≠ "") : s.length ≠ 0 := by
  intro h0
  apply h
  cases s with
  | mk data =>
    have : data = [] := List.length_eq_zero.mp h0
    subst this
    rfl

namespace RowBuilder

/-- After any `collectRows`, the retained row state is a single row that is
not complete (it is empty, or its length differs from the field count); the
fields are untouched. -/
theorem collectRows_retained (s : RowBuilder) :
    ∃ x, ((collectRows s).2).rows = [x] ∧
      (x.length = 0 ∨ x.length ≠ s.fields.length) ∧
      ((collectRows s).2).fields = s.fields := by
  unfold collectRows
  by_cases hb : (!s.rows.isEmpty &&
      (currentRow s.rows).length != s.fields.length) = true
  · rw [if_pos hb]
    have hb2 : ((currentRow s.rows).length != s.fields.length) = true := by
      simp only [Bool.and_eq_true] at hb
      exact hb.2
    exact ⟨_, rfl, Or.inr (by simpa using hb2), rfl⟩
  · rw [if_neg hb]
    exact ⟨[], rfl, Or.inl rfl, rfl⟩

/-- `collectRows` on a single retained incomplete row returns no rows and
keeps that row. -/
theorem collectRows_single {s : RowBuilder} {x : List RawValue}
    (hrows : s.rows = [x]) (hx : x.length ≠ s.fields.length) :
    collectRows s = ([], { s with rows := [x] }) := by
  have hc : currentRow [x] = x := currentRow_concat [] x
  unfold collectRows
  rw [hrows]
  have hcond : (!([x] : List (List RawValue)).isEmpty &&
      (currentRow [x]).length != s.fields.length) = true := by
    simp [hc, hx, List.isEmpty]
  rw [if_pos hcond, hc]
  simp


/-- `build` when the processed chunk stream ends in a chunk without the
`chunkedValue` flag: the chunk buffer empties and the rows stand as built. -/
theorem build_runChunks_notChunked {s : RowBuilder} {rows : List (List RawValue)}
    {p : Chunk} (h : runChunks s.fields s.chunks none s.rows = some (rows, some p))
    (hp : p.chunkedValue = false) :
    build s = some ⟨s.fields, [], rows⟩ := by
  unfold build
  rw [h]
  simp [hp]

/-- Evaluation of `processChunk` in the boundary-merge case. -/
theorem processChunk_merge_eq {fields : List (String × SpanType)}
    {rows : List (List RawValue)} {c : Chunk} {headVal tailVal : RawValue}
    {rest : List RawValue} {nmt : String × SpanType} {merged : List RawValue}
    (hcur : (currentRow rows).getLast? = some headVal)
    (hget : fields.get? ((currentRow rows).length - 1) = some nmt)
    (hvals : c.values = tailVal :: rest)
    (hm : merge nmt.2 headVal tailVal = some merged) :
    processChunk fields true rows c =
      some ((rest.map getValue).foldl (append fields.length)
        (merged.foldl (append fields.length) (popCurrent rows)),
        ⟨rest, c.chunkedValue⟩) := by
  unfold processChunk
  simp only [hcur, hget, hvals, hm, if_true, Option.bind_eq_bind, Option.some_bind]

end RowBuilder

/-- C1 (counterexample): on field type `ARRAY<STRING>`, merging head
`["a","b"]` with tail `["c"]` concatenates the boundary strings `"b"` and
`"c"`, producing `["a","bc"]` — not `["a","b","c"]` as the claim states. -/
theorem C1_counterexample :
    RowBuilder.merge (.arrayT (.scalarT "STRING"))
      (.list [.str "a", .str "b"]) (.list [.str "c"]) =
      some [.list [.str "a", .str "bc"]] ∧
    RawValue.list [.str "a", .str "bc"] ≠
      RawValue.list [.str "a", .str "b", .str "c"] :=
  ⟨rfl, by simp⟩

/-- C1 (amended): ingesting chunk 1 `values:[["a","b"]], chunkedValue:true`
and chunk 2 `values:[["c"],"done"]` over fields `tags: ARRAY<STRING>` and a
second STRING field yields, by the recursive merge rule, the merged array
value `["a","bc"]` (the popped last element `"b"` and the shifted first
element `"c"` are string-concatenated before splicing). -/
theorem C1_amended :
    RowBuilder.build (RowBuilder.init
      [("tags", .arrayT (.scalarT "STRING")), ("f2", .scalarT "STRING")]
      [⟨[.list [.str "a", .str "b"]], true⟩,
       ⟨[.list [.str "c"], .str "done"], false⟩]) =
    some ⟨[("tags", .arrayT (.scalarT "STRING")), ("f2", .scalarT "STRING")], [],
      [[.list [.str "a", .str "bc"], .str "done"]]⟩ := rfl

/-- C2 (counterexample): the string sentinel `"NULL_VALUE"` is not nil for
`is.nil`, so a scalar merge with it string-concatenates, producing the single
value `"NULL_VALUEx"` rather than a 2-element unmerged sequence. -/
theorem C2_counterexample :
    RowBuilder.merge (.scalarT "STRING") (.str "NULL_VALUE") (.str "x") =
      some [.str "NULL_VALUEx"] := rfl

/-- C2 (amended): for every scalar merge, if either side is JS `null` or the
type code is FLOAT64, merge never concatenates: it returns both values
unmerged (as a 2-element sequence before the empty-string post-filter).  The
string sentinel `"NULL_VALUE"` is not special-cased by `merge`. -/
theorem C2_amended (c : String) (head tail : RawValue)
    (h : isNilRV head = true ∨ isNilRV tail = true ∨ c = "FLOAT64") :
    RowBuilder.merge (.scalarT c) head tail = some (mergeFilter [head, tail]) := by
  rw [RowBuilder.merge_scalarT]
  rcases h with h | h | h
  · simp [h]
  · simp [h]
  · subst h; simp

/-- Witness for C2: a FLOAT64-typed boundary at concrete values. -/
theorem C2_witness :
    RowBuilder.merge (.scalarT "FLOAT64") (.str "1.5") (.str "e3") =
      some (mergeFilter [.str "1.5", .str "e3"]) ∧
    mergeFilter [RawValue.str "1.5", RawValue.str "e3"] =
      [RawValue.str "1.5", RawValue.str "e3"] :=
  ⟨C2_amended "FLOAT64" (.str "1.5") (.str "e3") (Or.inr (Or.inr rfl)), rfl⟩

/-- C3 (counterexample): merging two empty strings under a STRING code
concatenates to `""`, which the post-filter drops — the result has 0
elements, not 1 or 2. -/
theorem C3_counterexample :
    RowBuilder.merge (.scalarT "STRING") (.str "") (.str "") = some [] ∧
    ([] : List RawValue).length = 0 := ⟨rfl, rfl⟩

/-- C3 (amended): whenever `merge` returns (does not throw), the result has
at most 2 elements and contains no empty-string element; and the post-filter
never removes a non-string element. -/
theorem C3_amended (t : SpanType) (head tail : RawValue) (r : List RawValue)
    (h : RowBuilder.merge t head tail = some r) :
    (r.length ≤ 2 ∧ ∀ x ∈ r, x ≠ RawValue.str "") ∧
      (∀ (vs : List RawValue) (x : RawValue), x ∈ vs →
        (∀ s, x ≠ RawValue.str s) → x ∈ mergeFilter vs) := by
  have hfilter : ∀ (vs : List RawValue), (mergeFilter vs).length ≤ vs.length ∧
      ∀ x ∈ mergeFilter vs, x ≠ RawValue.str "" := by
    intro vs
    refine ⟨List.length_filter_le _ _, ?_⟩
    intro x hx hcontra
    subst hcontra
    have := (List.mem_filter.mp hx).2
    simp [keepInMerge] at this
  have hkeep : ∀ (vs : List RawValue) (x : RawValue), x ∈ vs →
      (∀ s, x ≠ RawValue.str s) → x ∈ mergeFilter vs := by
    intro vs x hx hns
    refine List.mem_filter.mpr ⟨hx, ?_⟩
    cases x with
    | nullV => rfl
    | list _ => rfl
    | str s => exact absurd rfl (hns s)
  refine ⟨?_, hkeep⟩
  cases t with
  | scalarT c =>
    rw [RowBuilder.merge_scalarT] at h
    by_cases hm : (!isNilRV head && !isNilRV tail && !(c == "FLOAT64")) = true
    · rw [if_pos hm] at h
      cases h
      exact ⟨le_trans (hfilter _).1 (by simp), (hfilter _).2⟩
    · rw [if_neg hm] at h
      cases h
      exact ⟨le_trans (hfilter _).1 (by simp), (hfilter _).2⟩
  | arrayT elemT =>
    cases head with
    | list hs =>
      cases tail with
      | list ts =>
        rw [RowBuilder.merge_arrayT] at h
        cases hlast : hs.getLast? with
        | none => rw [hlast] at h; cases h
        | some hLast =>
          cases thead : ts.head? with
          | none => rw [hlast, thead] at h; cases h
          | some tHead =>
            rw [hlast, thead] at h
            simp only [Option.map_eq_some'] at h
            obtain ⟨items, _, hr⟩ := h
            subst hr
            exact ⟨le_trans (hfilter _).1 (by simp), (hfilter _).2⟩
      | nullV => simp [RowBuilder.merge, mergeF, getValue] at h
      | str _ => simp [RowBuilder.merge, mergeF, getValue] at h
    | nullV => simp [RowBuilder.merge, mergeF, getValue] at h
    | str _ => simp [RowBuilder.merge, mergeF, getValue] at h
  | structT sfields =>
    cases head with
    | list hs =>
      cases tail with
      | list ts =>
        rw [RowBuilder.merge_structT] at h
        cases hget : sfields.get? (hs.length - 1) with
        | none => rw [hget] at h; cases h
        | some nmt =>
          cases hlast : hs.getLast? with
          | none => rw [hget, hlast] at h; cases h
          | some hLast =>
            cases thead : ts.head? with
            | none => rw [hget, hlast, thead] at h; cases h
            | some tHead =>
              rw [hget, hlast, thead] at h
              simp only [Option.map_eq_some'] at h
              obtain ⟨items, _, hr⟩ := h
              subst hr
              exact ⟨le_trans (hfilter _).1 (by simp), (hfilter _).2⟩
      | nullV => simp [RowBuilder.merge, mergeF, getValue] at h
      | str _ => simp [RowBuilder.merge, mergeF, getValue] at h
    | nullV => simp [RowBuilder.merge, mergeF, getValue] at h
    | str _ => simp [RowBuilder.merge, mergeF, getValue] at h

/-- Witness for C3: a successful concrete merge. -/
theorem C3_witness :
    RowBuilder.merge (.scalarT "STRING") (.str "a") (.str "b") = some [.str "ab"] ∧
    (([RawValue.str "ab"].length ≤ 2 ∧
        ∀ x ∈ [RawValue.str "ab"], x ≠ RawValue.str "") ∧
      (∀ (vs : List RawValue) (x : RawValue), x ∈ vs →
        (∀ s, x ≠ RawValue.str s) → x ∈ mergeFilter vs)) :=
  ⟨rfl, C3_amended (.scalarT "STRING") (.str "a") (.str "b") [.str "ab"] rfl⟩

/-- C6 (counterexample): a `chunkedValue` boundary on a FLOAT64 scalar is
not surfaced as an error: `build` completes normally (`some`, no error
channel is ever signalled), silently appending the two unmerged halves as
separate values, which here form two separate (garbage) rows that `flush`
hands to the caller. -/
theorem C6_counterexample :
    RowBuilder.build (RowBuilder.init [("n", .scalarT "FLOAT64")]
      [⟨[.str "1."], true⟩, ⟨[.str "5"], false⟩]) =
      some ⟨[("n", .scalarT "FLOAT64")], [], [[.str "1."], [.str "5"]]⟩ ∧
    (RowBuilder.collectRows
        ⟨[("n", .scalarT "FLOAT64")], [], [[.str "1."], [.str "5"]]⟩).1 =
      [[.str "1."], [.str "5"]] := ⟨rfl, rfl⟩

/-- C6 (amended): floating-point values are never string-merged — a FLOAT64
merge always returns successfully with both halves unmerged (less any
empty-string half dropped by the post-filter); no error is raised. -/
theorem C6_amended (head tail : RawValue) :
    RowBuilder.merge (.scalarT "FLOAT64") head tail =
      some (mergeFilter [head, tail]) := by
  rw [RowBuilder.merge_scalarT]
  simp

/-- C7 (counterexample): when the boundary merge consumes the final chunk's
only value, the retained residual chunk is trimmed to zero values — not to
"its single final incomplete value" (and the merged value popped from the
current row is lost with it). -/
theorem C7_counterexample :
    RowBuilder.build (RowBuilder.init [("f", .scalarT "STRING")]
      [⟨[.str "a"], true⟩, ⟨[.str "b"], true⟩]) =
      some ⟨[("f", .scalarT "STRING")], [⟨[], true⟩], [[]]⟩ ∧
    (Chunk.mk [] true).values.length = 0 := ⟨rfl, rfl⟩

/-- C7 (amended): after every successful `build`, the residual chunk buffer
holds at most one chunk; a held chunk has its own `chunkedValue` flag set
and has been trimmed to at most one value (its final one — possibly zero
values when the boundary merge exhausted its value list). -/
theorem C7_amended {s s' : RowBuilder} (h : RowBuilder.build s = some s') :
    s'.chunks.length ≤ 1 ∧
      ∀ c ∈ s'.chunks, c.chunkedValue = true ∧ c.values.length ≤ 1 := by
  unfold RowBuilder.build at h
  simp only [Option.bind_eq_bind, Option.bind_eq_some] at h
  obtain ⟨⟨rows, prev⟩, hr, h⟩ := h
  match prev, h with
  | some p, h =>
    by_cases hc : p.chunkedValue = true
    · simp only [hc, if_true] at h
      cases h
      refine ⟨by simp, ?_⟩
      intro c hcmem
      simp only [List.mem_singleton] at hcmem
      subst hcmem
      refine ⟨rfl, ?_⟩
      cases hval : p.values.getLast? <;> simp [hval]
    · simp only [Bool.not_eq_true] at hc
      simp only [hc, Bool.false_eq_true, if_false] at h
      cases h
      exact ⟨by simp, by intro c hc2; cases hc2⟩
  | none, h =>
    cases h
    exact ⟨by simp, by intro c hc2; cases hc2⟩

/-- Witness for C7: a successful concrete build with an empty residual
buffer. -/
theorem C7_witness :
    RowBuilder.build (RowBuilder.init [("f", .scalarT "STRING")]
      [⟨[.str "a"], false⟩]) =
      some ⟨[("f", .scalarT "STRING")], [], [[.str "a"]]⟩ ∧
    (([] : List Chunk).length ≤ 1 ∧
      ∀ c ∈ ([] : List Chunk), c.chunkedValue = true ∧ c.values.length ≤ 1) :=
  ⟨rfl, @C7_amended
    (RowBuilder.init [("f", .scalarT "STRING")] [⟨[.str "a"], false⟩])
    ⟨[("f", .scalarT "STRING")], [], [[.str "a"]]⟩ rfl⟩

/-- C8 (confirmed): with a positive field count, a second `collectRows` with
no intervening ingestion returns no rows: the retained state is always a
single incomplete row, which the next call holds back again. -/
theorem C8_flush_twice (s : RowBuilder) (hfc : 0 < s.fields.length) :
    (RowBuilder.collectRows (RowBuilder.collectRows s).2).1 = [] := by
  obtain ⟨x, hx1, hx2, hxf⟩ := RowBuilder.collectRows_retained s
  have hxlen : x.length ≠ ((RowBuilder.collectRows s).2).fields.length := by
    rw [hxf]
    rcases hx2 with h0 | hne
    · omega
    · exact hne
  rw [RowBuilder.collectRows_single hx1 hxlen]

/-- Witness for C8 at a concrete state. -/
theorem C8_witness :
    (RowBuilder.collectRows (RowBuilder.collectRows
      (RowBuilder.init [("f", .scalarT "STRING")] [])).2).1 = [] :=
  C8_flush_twice (RowBuilder.init [("f", .scalarT "STRING")] []) (by decide)

/-- C9 (confirmed): the formatter maps each value by its declared field
type — the null sentinel to null (for every type), ARRAY values to the
elementwise recursively formatted sequence, STRUCT values to named child
values recursing per child field in declared order, and every other code to
the value handed through unchanged (scalar decoding being the external
collaborator's step); the per-row formatter of `toJSON` pairs each row value
with its field positionally.  The source formatter mutates nothing — it is
embedded as a pure function of the field types and the row. -/
theorem C9_formatter :
    (∀ (t : SpanType) (v : RawValue), isNullSentinel v = true →
        RowBuilder.formatValue t v = some .nullF) ∧
    (∀ (e : SpanType) (vs : List RawValue),
        RowBuilder.formatValue (.arrayT e) (.list vs) =
          (mapMOpt (RowBuilder.formatValue e) vs).map .arr) ∧
    (∀ (fs : List (String × SpanType)) (vs : List RawValue),
        RowBuilder.formatValue (.structT fs) (.list vs) =
          (formatChildrenF RowBuilder.formatValue fs vs).map .strct) ∧
    (∀ (c : String) (v : RawValue), isNullSentinel v = false →
        RowBuilder.formatValue (.scalarT c) v = some (.raw v)) ∧
    (∀ (n : String) (t : SpanType) (fs : List (String × SpanType))
        (v : RawValue) (vs : List RawValue),
        RowBuilder.formatRow ((n, t) :: fs) (v :: vs) =
          (RowBuilder.formatValue t v).bind fun fv =>
            (RowBuilder.formatRow fs vs).bind fun rest => some ((n, fv) :: rest)) :=
  ⟨RowBuilder.formatValue_sentinel, RowBuilder.formatValue_arrayT,
    RowBuilder.formatValue_structT, RowBuilder.formatValue_scalarT,
    fun _ _ _ _ _ => rfl⟩

/-- Witness for C9 at concrete inputs. -/
theorem C9_witness :
    RowBuilder.formatValue (.scalarT "INT64") (.str "NULL_VALUE") =
      some .nullF ∧
    RowBuilder.formatValue (.scalarT "STRING") (.str "x") =
      some (.raw (.str "x")) :=
  ⟨C9_formatter.1 (.scalarT "INT64") (.str "NULL_VALUE") rfl,
    C9_formatter.2.2.2.1 "STRING" (.str "x") rfl⟩

/-- C10 (confirmed): on every reachable builder state with a positive field
count, every row before the last is complete and the last row holds at most
`fieldCount` values; consequently every row `collectRows` returns is exactly
`fieldCount` long. -/
theorem C10_rows_invariant {s : RowBuilder} (hs : RowBuilder.Reach s)
    (hfc : 0 < s.fields.length) :
    RowBuilder.goodRows s.fields.length s.rows ∧
      ∀ row ∈ (RowBuilder.collectRows s).1, row.length = s.fields.length := by
  have main : ∀ {s : RowBuilder}, RowBuilder.Reach s → 0 < s.fields.length →
      RowBuilder.goodRows s.fields.length s.rows := by
    intro s hs
    induction hs with
    | start fields chunks => intro _; exact RowBuilder.goodRows_init _
    | ingest c h ih => intro hfc2; exact ih hfc2
    | buildStep h hb ih =>
      intro hfc2
      rename_i s1 s1'
      have hf := RowBuilder.build_fields hb
      rw [hf] at hfc2 ⊢
      exact RowBuilder.goodRows_build hfc2 (ih hfc2) hb
    | flushStep h ih =>
      intro hfc2
      rename_i s1
      have hfields := (RowBuilder.collectRows_retained s1).choose_spec.2.2
      rw [hfields] at hfc2 ⊢
      exact ((RowBuilder.collectRows_good (ih hfc2)).2).1
  refine ⟨main hs hfc, ?_⟩
  exact (RowBuilder.collectRows_good (main hs hfc)).1

/-- Witness for C10 at the initial state of a one-field builder. -/
theorem C10_witness :
    RowBuilder.goodRows 1 [[]] ∧
      ∀ row ∈ (RowBuilder.collectRows
        (RowBuilder.init [("f", .scalarT "STRING")] [])).1, row.length = 1 :=
  C10_rows_invariant (RowBuilder.Reach.start [("f", .scalarT "STRING")] [])
    (by decide)

/-- C4 (counterexample): one STRING field, a single chunk carrying the single
value `"a"` with `chunkedValue = true`; the post-merge value stream is that
one value (`k = 1`, `fieldCount = 1`), yet after `build`, `collectRows`
returns 0 rows (not 1) and a residual chunk is retained. -/
theorem C4_counterexample :
    RowBuilder.build (RowBuilder.init [("f", .scalarT "STRING")]
      [⟨[.str "a"], true⟩]) =
      some ⟨[("f", .scalarT "STRING")], [⟨[.str "a"], true⟩], [[]]⟩ ∧
    (RowBuilder.collectRows
        ⟨[("f", .scalarT "STRING")], [⟨[.str "a"], true⟩], [[]]⟩).1.length = 0 ∧
    [Chunk.mk [.str "a"] true] ≠ ([] : List Chunk) :=
  ⟨rfl, rfl, by simp⟩

/-- C4 (amended): provided the final chunk is not flagged `chunkedValue`
(otherwise `build` retains residual state by design), if the post-merge value
stream — the values distributed over the built rows, `totalLen` — has length
exactly `k * fieldCount` with `fieldCount > 0`, then `collectRows` after full
ingestion returns exactly `k` rows, each complete, and leaves no residual
state: the row state resets to a single empty row and the chunk buffer is
empty. -/
theorem C4_amended (fields : List (String × SpanType)) (cs : List Chunk)
    (k : Nat) (s' : RowBuilder)
    (hfc : 0 < fields.length)
    (hlast : ∀ c, cs.getLast? = some c → c.chunkedValue = false)
    (hb : RowBuilder.build (RowBuilder.init fields cs) = some s')
    (hk : RowBuilder.totalLen s'.rows = k * fields.length) :
    (RowBuilder.collectRows s').1.length = k ∧
    (∀ row ∈ (RowBuilder.collectRows s').1, row.length = fields.length) ∧
    (RowBuilder.collectRows s').2.rows = [[]] ∧
    s'.chunks = [] := by
  have hfields : s'.fields = fields := RowBuilder.build_fields hb
  have hg : RowBuilder.goodRows fields.length s'.rows :=
    RowBuilder.goodRows_build hfc (RowBuilder.goodRows_init _) hb
  have hchunks : s'.chunks = [] := by
    unfold RowBuilder.build at hb
    simp only [Option.bind_eq_bind, Option.bind_eq_some] at hb
    obtain ⟨⟨rows, prev⟩, hr, hb2⟩ := hb
    match prev, hb2 with
    | none, hb2 => cases hb2; rfl
    | some p, hb2 =>
      have hpf : p.chunkedValue = false := by
        rcases RowBuilder.runChunks_last_flag fields cs none hr with
          ⟨c, hcl, hcf⟩ | ⟨hnil, hpv⟩
        · rw [hcf]; exact hlast c hcl
        · exact Option.noConfusion hpv
      simp only [hpf, Bool.false_eq_true, if_false] at hb2
      cases hb2
      rfl
  obtain ⟨l, r, hrows, hl, hr2⟩ := hg
  have hcount : fields.length * l.length + r.length = k * fields.length := by
    have h1 := RowBuilder.totalLen_concat l r
    have h2 := RowBuilder.totalLen_complete hl
    rw [hrows] at hk
    omega
  have hcoll := RowBuilder.collectRows_concat s' l r hrows
  rw [hfields] at hcoll
  rcases RowBuilder.rows_count_split hfc hr2 hcount with ⟨hr0, hn⟩ | ⟨hrfc, hn⟩
  · have hrnil : r = [] := List.length_eq_zero.mp hr0
    rw [if_pos (by omega : r.length ≠ fields.length)] at hcoll
    rw [hcoll]
    exact ⟨hn, hl, by rw [hrnil], hchunks⟩
  · rw [if_neg (by omega : ¬r.length ≠ fields.length)] at hcoll
    rw [hcoll]
    refine ⟨by simpa using hn, ?_, rfl, hchunks⟩
    intro row hrow
    rcases List.mem_append.1 hrow with hx | hx
    · exact hl row hx
    · simp only [List.mem_singleton] at hx
      subst hx
      exact hrfc

/-- Witness for C4 at a concrete one-field, one-chunk stream. -/
theorem C4_witness :
    (RowBuilder.collectRows
        ⟨[("a", .scalarT "STRING")], [], [[.str "x"]]⟩).1.length = 1 ∧
    (∀ row ∈ (RowBuilder.collectRows
        ⟨[("a", .scalarT "STRING")], [], [[.str "x"]]⟩).1,
      row.length = [("a", SpanType.scalarT "STRING")].length) ∧
    (RowBuilder.collectRows
        ⟨[("a", .scalarT "STRING")], [], [[.str "x"]]⟩).2.rows = [[]] ∧
    (⟨[("a", .scalarT "STRING")], [], [[.str "x"]]⟩ : RowBuilder).chunks = [] :=
  C4_amended [("a", .scalarT "STRING")] [⟨[.str "x"], false⟩] 1
    ⟨[("a", .scalarT "STRING")], [], [[.str "x"]]⟩
    (by decide) (by intro c h; cases h; rfl) rfl rfl

/-- C5 (counterexample): splitting the empty string value `""` (its only
possible boundary split is `""`/`""`) changes the result: unsplit, the value
survives as a row value; split, the two halves merge to `""`, which the
post-filter drops, so the value disappears and the row sets differ. -/
theorem C5_counterexample :
    RowBuilder.build (RowBuilder.init [("f", .scalarT "STRING")]
      [⟨[.str ""], false⟩]) =
      some ⟨[("f", .scalarT "STRING")], [], [[.str ""]]⟩ ∧
    RowBuilder.build (RowBuilder.init [("f", .scalarT "STRING")]
      [⟨[.str ""], true⟩, ⟨[.str ""], false⟩]) =
      some ⟨[("f", .scalarT "STRING")], [], [[]]⟩ ∧
    (RowBuilder.collectRows
        ⟨[("f", .scalarT "STRING")], [], [[.str ""]]⟩).1 = [[.str ""]] ∧
    (RowBuilder.collectRows
        ⟨[("f", .scalarT "STRING")], [], [[]]⟩).1 = [] :=
  ⟨rfl, rfl, rfl, rfl⟩

/-- C5 (amended): over an all-STRING field list, for every unchunked chunk
stream and every non-empty scalar string value `v` in it, splitting `v` at
any boundary `v = v1 ++ v2` and delivering the two parts as two consecutive
chunks with `chunkedValue = true` on the first produces exactly the same
builder state — hence the same complete row set — as the unsplit stream. -/
theorem C5_amended (fields : List (String × SpanType)) (cs : List Chunk)
    (a b : List RawValue) (v v1 v2 : String)
    (hfields : ∀ p ∈ fields, p.2 = SpanType.scalarT "STRING")
    (hfc : 0 < fields.length)
    (hcs : ∀ c ∈ cs, c.chunkedValue = false)
    (hv : v = v1 ++ v2) (hne : v ≠ "") :
    RowBuilder.build (RowBuilder.init fields
      (cs ++ [⟨a ++ RawValue.str v :: b, false⟩])) =
    RowBuilder.build (RowBuilder.init fields
      (cs ++ [⟨a ++ [RawValue.str v1], true⟩, ⟨RawValue.str v2 :: b, false⟩])) := by
  set fc := fields.length with hfcdef
  set cfull : Chunk := ⟨a ++ RawValue.str v :: b, false⟩ with hcfull
  set c1 : Chunk := ⟨a ++ [RawValue.str v1], true⟩ with hc1
  set c2 : Chunk := ⟨RawValue.str v2 :: b, false⟩ with hc2
  set rows0 : List (List RawValue) :=
    (cs.map Chunk.values).flatten.foldl (RowBuilder.append fc) [[]] with hrows0
  set rows0' : List (List RawValue) :=
    a.foldl (RowBuilder.append fc) rows0 with hrows0'
  have hg0' : RowBuilder.goodRows fc rows0' :=
    RowBuilder.goodRows_appendList fc hfc a
      (RowBuilder.goodRows_appendList fc hfc _ (RowBuilder.goodRows_init fc))
  obtain ⟨l, r, hlr, hl, hr⟩ := hg0'
  -- The left (unsplit) build.
  have hallL : ∀ c ∈ cs ++ [cfull], c.chunkedValue = false := by
    intro c hc
    rcases List.mem_append.1 hc with hc | hc
    · exact hcs c hc
    · simp only [List.mem_singleton] at hc
      subst hc
      rfl
  have hLrun : RowBuilder.runChunks fields (cs ++ [cfull]) none [[]] =
      some (((cs ++ [cfull]).map Chunk.values).flatten.foldl
        (RowBuilder.append fc) [[]], some cfull) := by
    rw [RowBuilder.runChunks_unchunked fields (cs ++ [cfull]) none [[]] hallL rfl]
    rw [List.getLast?_concat]
  have hLrows : ((cs ++ [cfull]).map Chunk.values).flatten.foldl
      (RowBuilder.append fc) [[]] =
      b.foldl (RowBuilder.append fc) (RowBuilder.append fc rows0' (.str v)) := by
    rw [List.map_append, List.flatten_append]
    simp only [List.map_cons, List.map_nil, List.flatten_cons, List.flatten_nil,
      List.append_nil]
    rw [List.foldl_append, ← hrows0, List.foldl_append, ← hrows0', List.foldl_cons]
  have hL : RowBuilder.build (RowBuilder.init fields (cs ++ [cfull])) =
      some ⟨fields, [],
        b.foldl (RowBuilder.append fc) (RowBuilder.append fc rows0' (.str v))⟩ := by
    have := RowBuilder.build_runChunks_notChunked
      (s := RowBuilder.init fields (cs ++ [cfull])) hLrun rfl
    rw [this, hLrows]
    rfl
  -- The right (split) build: first the shared unchunked prefix.
  have hRsplit := RowBuilder.runChunks_append_chunks fields cs [c1, c2] none [[]]
  rw [RowBuilder.runChunks_unchunked fields cs none [[]] hcs rfl] at hRsplit
  -- Evaluate the two split chunks from any unflagged previous chunk.
  have htail : ∀ (prev : Option Chunk),
      (prev.map Chunk.chunkedValue).getD false = false →
      RowBuilder.runChunks fields [c1, c2] prev rows0 =
        some (b.foldl (RowBuilder.append fc) (RowBuilder.append fc rows0' (.str v)),
          some ⟨b, false⟩) := by
    intro prev hprev
    have hstep1 : RowBuilder.processChunk fields false rows0 c1 =
        some (RowBuilder.append fc rows0' (.str v1), c1) := by
      unfold RowBuilder.processChunk
      simp only [Bool.false_eq_true, if_false, RowBuilder.map_getValue]
      show some ((a ++ [RawValue.str v1]).foldl (RowBuilder.append fc) rows0, c1) = _
      rw [List.foldl_append, List.foldl_cons, List.foldl_nil, ← hrows0']
    -- The boundary merge on the second chunk.
    have hcur : (RowBuilder.currentRow
        (RowBuilder.append fc rows0' (.str v1))).getLast? = some (.str v1) := by
      rw [hlr]
      exact RowBuilder.currentRow_append_getLast fc l r (.str v1)
    have hcurlen : (RowBuilder.currentRow
        (RowBuilder.append fc rows0' (.str v1))).length - 1 < fields.length := by
      rw [hlr, RowBuilder.append_concat]
      by_cases hcase : r.length = fc
      · rw [if_pos hcase, RowBuilder.currentRow_concat]
        simpa using hfc
      · rw [if_neg hcase, RowBuilder.currentRow_concat]
        simp only [List.length_append, List.length_singleton]
        omega
    have hget : fields.get?
        ((RowBuilder.currentRow (RowBuilder.append fc rows0' (.str v1))).length - 1) =
        some (fields.get ⟨_, hcurlen⟩) := List.get?_eq_get hcurlen
    have htype : (fields.get ⟨_, hcurlen⟩).2 = SpanType.scalarT "STRING" :=
      hfields _ (List.get_mem fields _ hcurlen)
    have hm : RowBuilder.merge (fields.get ⟨_, hcurlen⟩).2 (.str v1) (.str v2) =
        some [.str v] := by
      have hcond : (!isNilRV (RawValue.str v1) && !isNilRV (RawValue.str v2) &&
          !(("STRING" : String) == "FLOAT64")) = true := rfl
      have hkeep : keepInMerge (RawValue.str v) = true := by
        simp only [keepInMerge, bne_iff_ne, ne_eq]
        exact string_length_ne_zero hne
      rw [htype, RowBuilder.merge_scalarT, if_pos hcond]
      simp only [jsPrimToString, ← hv, mergeFilter, List.filter_cons, hkeep,
        if_true, List.filter_nil]
    have hstep2 : RowBuilder.processChunk fields true
        (RowBuilder.append fc rows0' (.str v1)) c2 =
        some (b.foldl (RowBuilder.append fc) (RowBuilder.append fc rows0' (.str v)),
          ⟨b, false⟩) := by
      rw [RowBuilder.processChunk_merge_eq hcur hget (by rw [hc2]) hm]
      rw [RowBuilder.map_getValue]
      have hpop : [RawValue.str v].foldl (RowBuilder.append fc)
          (RowBuilder.popCurrent (RowBuilder.append fc rows0' (.str v1))) =
          RowBuilder.append fc rows0' (.str v) := by
        rw [List.foldl_cons, List.foldl_nil, hlr,
          RowBuilder.append_pop_append fc hfc l r (.str v1) (.str v)]
      rw [hpop]
    simp only [RowBuilder.runChunks, hprev, Option.bind_eq_bind]
    rw [hstep1]
    simp only [Option.some_bind]
    show (RowBuilder.processChunk fields c1.chunkedValue
        (RowBuilder.append fc rows0' (.str v1)) c2).bind _ = _
    rw [show c1.chunkedValue = true from rfl, hstep2]
    rfl
  -- Combine: the previous chunk entering the split pair is unflagged.
  have hRrun : RowBuilder.runChunks fields (cs ++ [c1, c2]) none [[]] =
      some (b.foldl (RowBuilder.append fc) (RowBuilder.append fc rows0' (.str v)),
        some ⟨b, false⟩) := by
    rw [hRsplit]
    simp only [Option.some_bind]
    cases hcl : cs.getLast? with
    | none => exact htail none rfl
    | some cprev =>
      refine htail (some cprev) ?_
      simp only [Option.map_some', Option.getD_some]
      exact hcs cprev (List.mem_of_mem_getLast? hcl)
  have hR : RowBuilder.build (RowBuilder.init fields (cs ++ [c1, c2])) =
      some ⟨fields, [],
        b.foldl (RowBuilder.append fc) (RowBuilder.append fc rows0' (.str v))⟩ :=
    RowBuilder.build_runChunks_notChunked
      (s := RowBuilder.init fields (cs ++ [c1, c2])) hRrun rfl
  rw [hL, hR]

/-- Witness for C5: a one-field stream with `"ab"` split into `"a"`/`"b"`. -/
theorem C5_witness :
    RowBuilder.build (RowBuilder.init [("f", .scalarT "STRING")]
      [⟨[.str "ab"], false⟩]) =
    RowBuilder.build (RowBuilder.init [("f", .scalarT "STRING")]
      [⟨[.str "a"], true⟩, ⟨[.str "b"], false⟩]) :=
  C5_amended [("f", .scalarT "STRING")] [] [] [] "ab" "a" "b"
    (by intro p hp; simp at hp; rw [hp]) (by decide)
    (by intro c hc; cases hc) rfl (by decide)
